import Mathlib

/-!
Shallow embedding of the behavior-tree execution engine of this repository
(`BehaviorStatus`, `BehaviorNode` and its concrete subclasses, `Blackboard`,
`BehaviorTree`, `BehaviorTreeBuilder`).

Modelling conventions:
* The TypeScript class hierarchy rooted at `BehaviorNode` is flattened into a
  single inductive type `BehaviorNode`; each constructor carries exactly the
  persisted fields of the corresponding class (`_children`, `_currentIndex`,
  `_status`, `_successPolicy`, `_failurePolicy`, `_repeatCount`, `_isInfinite`,
  `_currentCount`, `_child`, the condition / action callbacks).
* In-place mutation of a node during `execute` is modelled by returning the
  updated node; mutation of the shared `Blackboard` by the condition / action
  callbacks is modelled by explicit state passing (the callback returns the
  updated blackboard next to its result).
* The `while` loop of `SequenceNode.execute` (resp. `SelectorNode.execute`),
  which starts at the persisted `_currentIndex`, is modelled by `seqLoop`
  (resp. `selLoop`) applied to `children.drop currentIndex`; the returned
  counter is the number of children the loop advanced over, so the final
  value of `_currentIndex` is `currentIndex + counter` when the loop stops
  early.
-/

namespace ThronefallBT

/-- The `BehaviorStatus` enum of the source (`SUCCESS`, `FAILURE`, `RUNNING`,
`INVALID`). -/
inductive BehaviorStatus
  | success
  | failure
  | running
  | invalid
deriving DecidableEq, Repr

/-- Values stored in the blackboard (the source uses `any`; the claims only
need a few concrete kinds). -/
inductive Val
  | vInt (n : Int)
  | vStr (s : String)
  | vBool (b : Bool)
deriving DecidableEq, Repr

/-- The `Blackboard` class: a `Map<string, any>` preserving insertion order. -/
abbrev Blackboard := List (String × Val)

/-- `Blackboard.set`: overwrite in place if the key exists, else append. -/
def bbSet : Blackboard → String → Val → Blackboard
  | [], k, v => [(k, v)]
  | (k', v') :: rest, k, v =>
    if k' = k then (k, v) :: rest else (k', v') :: bbSet rest k v

/-- Lookup underlying `Blackboard.get` / `Blackboard.has`. -/
def bbFind : Blackboard → String → Option Val
  | [], _ => none
  | (k', v') :: rest, k => if k' = k then some v' else bbFind rest k

/-- `Blackboard.get(key, defaultValue)`. -/
def bbGet (bb : Blackboard) (k : String) (dflt : Val) : Val :=
  (bbFind bb k).getD dflt

/-- `Blackboard.has(key)`. -/
def bbHas (bb : Blackboard) (k : String) : Bool :=
  (bbFind bb k).isSome

/-- The node hierarchy, flattened: one constructor per concrete class. -/
inductive BehaviorNode
  | sequenceNode (name : String) (children : List BehaviorNode)
      (currentIndex : Nat) (status : BehaviorStatus)
  | selectorNode (name : String) (children : List BehaviorNode)
      (currentIndex : Nat) (status : BehaviorStatus)
  | parallelNode (name : String) (successPolicy failurePolicy : Int)
      (children : List BehaviorNode) (status : BehaviorStatus)
  | conditionNode (name : String) (cond : Blackboard → Blackboard × Bool)
      (status : BehaviorStatus)
  | actionNode (name : String) (act : Blackboard → Blackboard × BehaviorStatus)
      (status : BehaviorStatus)
  | inverterNode (name : String) (child : Option BehaviorNode)
      (status : BehaviorStatus)
  | repeatNode (name : String) (repeatCount : Int) (isInfinite : Bool)
      (currentCount : Int) (child : Option BehaviorNode) (status : BehaviorStatus)
  | untilSuccessNode (name : String) (child : Option BehaviorNode)
      (status : BehaviorStatus)
  | untilFailureNode (name : String) (child : Option BehaviorNode)
      (status : BehaviorStatus)

/-- `_status` of a node. -/
def statusOf : BehaviorNode → BehaviorStatus
  | .sequenceNode _ _ _ st => st
  | .selectorNode _ _ _ st => st
  | .parallelNode _ _ _ _ st => st
  | .conditionNode _ _ st => st
  | .actionNode _ _ st => st
  | .inverterNode _ _ st => st
  | .repeatNode _ _ _ _ _ st => st
  | .untilSuccessNode _ _ st => st
  | .untilFailureNode _ _ st => st

/-- `_currentIndex` of a `SequenceNode` / `SelectorNode` (0 for other nodes). -/
def cursorOf : BehaviorNode → Nat
  | .sequenceNode _ _ i _ => i
  | .selectorNode _ _ i _ => i
  | _ => 0

/-- `_currentCount` of a `RepeatNode` (0 for other nodes). -/
def counterOf : BehaviorNode → Int
  | .repeatNode _ _ _ c _ _ => c
  | _ => 0

mutual

/-- `reset()`: `BehaviorNode.reset` sets `_status` to `INVALID`;
`SequenceNode` / `SelectorNode` additionally reset `_currentIndex` to 0,
`RepeatNode` resets `_currentCount` to 0, and composites / decorators
recurse into their children. -/
def resetNode : BehaviorNode → BehaviorNode
  | .sequenceNode nm ch _ _ => .sequenceNode nm (resetList ch) 0 .invalid
  | .selectorNode nm ch _ _ => .selectorNode nm (resetList ch) 0 .invalid
  | .parallelNode nm sp fp ch _ => .parallelNode nm sp fp (resetList ch) .invalid
  | .conditionNode nm f _ => .conditionNode nm f .invalid
  | .actionNode nm f _ => .actionNode nm f .invalid
  | .inverterNode nm c _ => .inverterNode nm (resetOpt c) .invalid
  | .repeatNode nm rc inf _ c _ => .repeatNode nm rc inf 0 (resetOpt c) .invalid
  | .untilSuccessNode nm c _ => .untilSuccessNode nm (resetOpt c) .invalid
  | .untilFailureNode nm c _ => .untilFailureNode nm (resetOpt c) .invalid

/-- `CompositeNode.reset`: reset every child. -/
def resetList : List BehaviorNode → List BehaviorNode
  | [] => []
  | c :: cs => resetNode c :: resetList cs

/-- `DecoratorNode.reset`: reset the child if present. -/
def resetOpt : Option BehaviorNode → Option BehaviorNode
  | none => none
  | some c => some (resetNode c)

end

theorem sizeOf_drop_le (l : List BehaviorNode) (i : Nat) :
    sizeOf (l.drop i) ≤ sizeOf l := by
  induction l generalizing i with
  | nil => cases i <;> simp
  | cons c cs ih =>
    cases i with
    | zero => simp
    | succ j =>
      have h := ih j
      simp only [List.drop_succ_cons]
      simp only [List.cons.sizeOf_spec]
      omega

mutual

/-- `execute(blackboard)`, for every node class; returns the updated node,
the updated blackboard, and the returned status (which `execute` also stores
into `_status`). -/
def execute : BehaviorNode → Blackboard → BehaviorNode × Blackboard × BehaviorStatus
  | .sequenceNode nm ch idx _, bb =>
    if ch.isEmpty then
      (.sequenceNode nm ch idx .success, bb, .success)
    else
      match seqLoop (ch.drop idx) bb with
      | (rest, bb', .success, _) =>
        (.sequenceNode nm (ch.take idx ++ rest) 0 .success, bb', .success)
      | (rest, bb', st, j) =>
        (.sequenceNode nm (ch.take idx ++ rest) (idx + j) st, bb', st)
  | .selectorNode nm ch idx _, bb =>
    if ch.isEmpty then
      (.selectorNode nm ch idx .failure, bb, .failure)
    else
      match selLoop (ch.drop idx) bb with
      | (rest, bb', .failure, _) =>
        (.selectorNode nm (ch.take idx ++ rest) 0 .failure, bb', .failure)
      | (rest, bb', st, j) =>
        (.selectorNode nm (ch.take idx ++ rest) (idx + j) st, bb', st)
  | .parallelNode nm sp fp ch _, bb =>
    if ch.isEmpty then
      (.parallelNode nm sp fp ch .success, bb, .success)
    else
      match execAll ch bb with
      | (rs, bb') =>
        let ch' := rs.map Prod.fst
        let successCount := (rs.map Prod.snd).count .success
        let failureCount := (rs.map Prod.snd).count .failure
        let runningCount := (rs.map Prod.snd).count .running
        if fp > 0 ∧ (failureCount : Int) ≥ fp then
          (.parallelNode nm sp fp ch' .failure, bb', .failure)
        else
          let requiredSuccessCount : Int := if sp > 0 then sp else (ch.length : Int)
          if (successCount : Int) ≥ requiredSuccessCount then
            (.parallelNode nm sp fp ch' .success, bb', .success)
          else if runningCount > 0 then
            (.parallelNode nm sp fp ch' .running, bb', .running)
          else
            (.parallelNode nm sp fp ch' .failure, bb', .failure)
  | .conditionNode nm f _, bb =>
    match f bb with
    | (bb', b) =>
      let st := if b then BehaviorStatus.success else BehaviorStatus.failure
      (.conditionNode nm f st, bb', st)
  | .actionNode nm f _, bb =>
    match f bb with
    | (bb', st) => (.actionNode nm f st, bb', st)
  | .inverterNode nm none _, bb =>
    (.inverterNode nm none .failure, bb, .failure)
  | .inverterNode nm (some c) _, bb =>
    match execute c bb with
    | (c', bb', childStatus) =>
      let st := if childStatus = BehaviorStatus.success then BehaviorStatus.failure
        else if childStatus = BehaviorStatus.failure then BehaviorStatus.success
        else childStatus
      (.inverterNode nm (some c') st, bb', st)
  | .repeatNode nm rc inf cnt none _, bb =>
    (.repeatNode nm rc inf cnt none .failure, bb, .failure)
  | .repeatNode nm rc inf cnt (some c) _, bb =>
    if inf = true ∨ cnt < rc then
      match execute c bb with
      | (c', bb', childStatus) =>
        if childStatus = BehaviorStatus.running then
          (.repeatNode nm rc inf cnt (some c') .running, bb', .running)
        else
          let cnt' := if inf then cnt else cnt + 1
          if inf = true ∨ cnt' < rc then
            (.repeatNode nm rc inf cnt' (some (resetNode c')) .running, bb', .running)
          else
            (.repeatNode nm rc inf 0 (some c') .success, bb', .success)
    else
      (.repeatNode nm rc inf 0 (some c) .success, bb, .success)
  | .untilSuccessNode nm none _, bb =>
    (.untilSuccessNode nm none .failure, bb, .failure)
  | .untilSuccessNode nm (some c) _, bb =>
    match execute c bb with
    | (c', bb', childStatus) =>
      if childStatus = BehaviorStatus.success then
        (.untilSuccessNode nm (some c') .success, bb', .success)
      else if childStatus = BehaviorStatus.running then
        (.untilSuccessNode nm (some c') .running, bb', .running)
      else
        (.untilSuccessNode nm (some (resetNode c')) .running, bb', .running)
  | .untilFailureNode nm none _, bb =>
    (.untilFailureNode nm none .failure, bb, .failure)
  | .untilFailureNode nm (some c) _, bb =>
    match execute c bb with
    | (c', bb', childStatus) =>
      if childStatus = BehaviorStatus.failure then
        (.untilFailureNode nm (some c') .success, bb', .success)
      else if childStatus = BehaviorStatus.running then
        (.untilFailureNode nm (some c') .running, bb', .running)
      else
        (.untilFailureNode nm (some (resetNode c')) .running, bb', .running)
termination_by n _ => sizeOf n
decreasing_by
  all_goals simp_wf
  all_goals try omega
  · have h1 := sizeOf_drop_le ch idx
    omega
  · have h1 := sizeOf_drop_le ch idx
    omega

/-- The `while` loop of `SequenceNode.execute`: run children in order,
stopping on `FAILURE` / `RUNNING`; the returned `Nat` counts the children
the loop advanced over (`_currentIndex` increments). -/
def seqLoop : List BehaviorNode → Blackboard →
    List BehaviorNode × Blackboard × BehaviorStatus × Nat
  | [], bb => ([], bb, .success, 0)
  | c :: cs, bb =>
    match execute c bb with
    | (c', bb', st) =>
      if st = BehaviorStatus.failure ∨ st = BehaviorStatus.running then
        (c' :: cs, bb', st, 0)
      else
        match seqLoop cs bb' with
        | (cs', bb'', st₂, j) => (c' :: cs', bb'', st₂, j + 1)
termination_by l _ => sizeOf l
decreasing_by all_goals simp_wf <;> omega

/-- The `while` loop of `SelectorNode.execute`: run children in order,
stopping on `SUCCESS` / `RUNNING`. -/
def selLoop : List BehaviorNode → Blackboard →
    List BehaviorNode × Blackboard × BehaviorStatus × Nat
  | [], bb => ([], bb, .failure, 0)
  | c :: cs, bb =>
    match execute c bb with
    | (c', bb', st) =>
      if st = BehaviorStatus.success ∨ st = BehaviorStatus.running then
        (c' :: cs, bb', st, 0)
      else
        match selLoop cs bb' with
        | (cs', bb'', st₂, j) => (c' :: cs', bb'', st₂, j + 1)
termination_by l _ => sizeOf l
decreasing_by all_goals simp_wf <;> omega

/-- The `for` loop of `ParallelNode.execute`: execute every child once,
collecting each child's updated node and status. -/
def execAll : List BehaviorNode → Blackboard →
    List (BehaviorNode × BehaviorStatus) × Blackboard
  | [], bb => ([], bb)
  | c :: cs, bb =>
    match execute c bb with
    | (c', bb', st) =>
      match execAll cs bb' with
      | (rs, bb'') => ((c', st) :: rs, bb'')
termination_by l _ => sizeOf l
decreasing_by all_goals simp_wf <;> omega

end

/-- The `BehaviorTree` class: a root node (possibly unset), its own
blackboard, and the enabled / debug flags. -/
structure BehaviorTree where
  name : String
  root : Option BehaviorNode
  blackboard : Blackboard
  enabled : Bool
  debug : Bool

/-- `BehaviorTree.execute()`: `FAILURE` when disabled or rootless, else
delegate to the root. -/
def treeExecute (t : BehaviorTree) : BehaviorTree × BehaviorStatus :=
  match t.enabled, t.root with
  | true, some r =>
    match execute r t.blackboard with
    | (r', bb', st) => ({ t with root := some r', blackboard := bb' }, st)
  | _, _ => (t, .failure)

/-- `BehaviorTree.reset()`: reset the root if present; the blackboard is not
touched. -/
def treeReset (t : BehaviorTree) : BehaviorTree :=
  { t with root := t.root.map resetNode }

/-- The structural skeleton of a node: names, policies and child shape with
all per-run state (`_status`, `_currentIndex`, `_currentCount`) and the
callbacks erased. -/
inductive Skel
  | sequenceS (name : String) (children : List Skel)
  | selectorS (name : String) (children : List Skel)
  | parallelS (name : String) (successPolicy failurePolicy : Int) (children : List Skel)
  | conditionS (name : String)
  | actionS (name : String)
  | inverterS (name : String) (child : Option Skel)
  | repeatS (name : String) (repeatCount : Int) (isInfinite : Bool) (child : Option Skel)
  | untilSuccessS (name : String) (child : Option Skel)
  | untilFailureS (name : String) (child : Option Skel)

mutual

/-- Erase a node to its structural skeleton. -/
def skel : BehaviorNode → Skel
  | .sequenceNode nm ch _ _ => .sequenceS nm (skelList ch)
  | .selectorNode nm ch _ _ => .selectorS nm (skelList ch)
  | .parallelNode nm sp fp ch _ => .parallelS nm sp fp (skelList ch)
  | .conditionNode nm _ _ => .conditionS nm
  | .actionNode nm _ _ => .actionS nm
  | .inverterNode nm c _ => .inverterS nm (skelOpt c)
  | .repeatNode nm rc inf _ c _ => .repeatS nm rc inf (skelOpt c)
  | .untilSuccessNode nm c _ => .untilSuccessS nm (skelOpt c)
  | .untilFailureNode nm c _ => .untilFailureS nm (skelOpt c)

def skelList : List BehaviorNode → List Skel
  | [] => []
  | c :: cs => skel c :: skelList cs

def skelOpt : Option BehaviorNode → Option Skel
  | none => none
  | some c => some (skel c)

end

mutual

/-- A node is fresh when its per-run state equals the constructor
initializers of the source classes: `_status = INVALID`,
`_currentIndex = 0`, `_currentCount = 0`, recursively in all children. -/
def IsFresh : BehaviorNode → Bool
  | .sequenceNode _ ch i st => i = 0 && st = .invalid && IsFreshList ch
  | .selectorNode _ ch i st => i = 0 && st = .invalid && IsFreshList ch
  | .parallelNode _ _ _ ch st => st = BehaviorStatus.invalid && IsFreshList ch
  | .conditionNode _ _ st => st = BehaviorStatus.invalid
  | .actionNode _ _ st => st = BehaviorStatus.invalid
  | .inverterNode _ c st => st = BehaviorStatus.invalid && IsFreshOpt c
  | .repeatNode _ _ _ cnt c st =>
      cnt = 0 && st = BehaviorStatus.invalid && IsFreshOpt c
  | .untilSuccessNode _ c st => st = BehaviorStatus.invalid && IsFreshOpt c
  | .untilFailureNode _ c st => st = BehaviorStatus.invalid && IsFreshOpt c

def IsFreshList : List BehaviorNode → Bool
  | [] => true
  | c :: cs => IsFresh c && IsFreshList cs

def IsFreshOpt : Option BehaviorNode → Bool
  | none => true
  | some c => IsFresh c

end

/-! ### The builder

`BehaviorTreeBuilder` mutates node objects through its `_currentNode`
pointer, which aliases into the tree under `_root`. The object graph is
modelled by an explicit store: node identifiers are indices into a list of
node records, and `addChild` / `setChild` update the parent record in the
store. -/

/-- The class of a node allocated by a builder factory method, with the
constructor arguments beyond the name. -/
inductive BKind
  | sequenceK
  | selectorK
  | parallelK (successPolicy failurePolicy : Int)
  | conditionK (cond : Blackboard → Blackboard × Bool)
  | actionK (act : Blackboard → Blackboard × BehaviorStatus)
  | inverterK
  | repeatK (repeatCount : Int)
  | untilSuccessK
  | untilFailureK

def BKind.isComposite : BKind → Bool
  | .sequenceK | .selectorK | .parallelK _ _ => true
  | _ => false

def BKind.isDecorator : BKind → Bool
  | .inverterK | .repeatK _ | .untilSuccessK | .untilFailureK => true
  | _ => false

/-- A node object as the builder sees it: its class and name, plus the
child links set by `CompositeNode.addChild` / `DecoratorNode.setChild`. -/
structure NodeRec where
  kind : BKind
  name : String
  children : List Nat := []
  child : Option Nat := none

/-- `BehaviorTreeBuilder` state: `_currentNode`, `_nodeStack`, `_root`
(as identifiers into the store of allocated nodes). -/
structure Builder where
  store : List NodeRec := []
  currentNode : Option Nat := none
  nodeStack : List (Option Nat) := []
  root : Option Nat := none

def Builder.empty : Builder := {}

/-- Attach `child` to `parent` the way `_addNode` does: `addChild` appends
for a composite, `setChild` overwrites for a decorator, and a leaf parent
ignores the node. -/
def attachChild (store : List NodeRec) (parent child : Nat) : List NodeRec :=
  match store[parent]? with
  | none => store
  | some r =>
    if r.kind.isComposite then
      store.set parent { r with children := r.children ++ [child] }
    else if r.kind.isDecorator then
      store.set parent { r with child := some child }
    else
      store

/-- `_addNode`: allocate the node; if there is no current node it becomes
the root and the current node, otherwise it is attached to the current
node. Returns the new node's identifier. -/
def addNode (b : Builder) (r : NodeRec) : Builder × Nat :=
  let id := b.store.length
  let store := b.store ++ [r]
  match b.currentNode with
  | none => ({ b with store := store, currentNode := some id, root := some id }, id)
  | some cur => ({ b with store := attachChild store cur id }, id)

/-- `_pushNode`: push the previous current node, make the new node current. -/
def pushNode (b : Builder) (id : Nat) : Builder :=
  { b with nodeStack := b.currentNode :: b.nodeStack, currentNode := some id }

/-- `_popNode`: pop the stack into the current node; with an empty stack the
current node becomes null. -/
def popNode (b : Builder) : Builder :=
  match b.nodeStack with
  | c :: rest => { b with currentNode := c, nodeStack := rest }
  | [] => { b with currentNode := none }

/-- A factory method for a composite / decorator: add the node and open its
scope. -/
def openNodeOp (b : Builder) (k : BKind) (nm : String) : Builder :=
  match addNode b { kind := k, name := nm } with
  | (b', id) => pushNode b' id

/-- `builder.sequence(name)`. -/
def sequenceOp (b : Builder) (nm : String) : Builder := openNodeOp b .sequenceK nm

/-- `builder.action(name, action)`: a leaf factory method adds the node
without opening a scope. -/
def actionOp (b : Builder) (nm : String)
    (f : Blackboard → Blackboard × BehaviorStatus) : Builder :=
  (addNode b { kind := .actionK f, name := nm }).1

/-- `builder.condition(name, condition)`. -/
def conditionOp (b : Builder) (nm : String)
    (f : Blackboard → Blackboard × Bool) : Builder :=
  (addNode b { kind := .conditionK f, name := nm }).1

/-- `builder.end()`. -/
def endOp (b : Builder) : Builder := popNode b

/-- `builder.build(name)`: clear any still-open scopes (logged, not an
error) and wrap the accumulated root. -/
def buildOp (b : Builder) : Builder :=
  { b with nodeStack := [] }

/-- The name of the builder's root node, if any. -/
def rootName (b : Builder) : Option String :=
  match b.root with
  | none => none
  | some id => (b.store[id]?).map NodeRec.name

mutual

/-- Realize the node with identifier `id` of a builder store as a
`BehaviorNode` value (fuel-bounded; every field beyond the constructor
arguments starts at its class initializer). -/
def extractN (store : List NodeRec) : Nat → Nat → Option BehaviorNode
  | 0, _ => none
  | fuel + 1, id =>
    match store[id]? with
    | none => none
    | some r =>
      match r.kind with
      | .sequenceK =>
        (extractL store fuel r.children).map fun ch =>
          .sequenceNode r.name ch 0 .invalid
      | .selectorK =>
        (extractL store fuel r.children).map fun ch =>
          .selectorNode r.name ch 0 .invalid
      | .parallelK sp fp =>
        (extractL store fuel r.children).map fun ch =>
          .parallelNode r.name sp fp ch .invalid
      | .conditionK f => some (.conditionNode r.name f .invalid)
      | .actionK f => some (.actionNode r.name f .invalid)
      | .inverterK =>
        (extractO store fuel r.child).map fun c =>
          .inverterNode r.name c .invalid
      | .repeatK rc =>
        (extractO store fuel r.child).map fun c =>
          .repeatNode r.name rc (decide (rc < 0)) 0 c .invalid
      | .untilSuccessK =>
        (extractO store fuel r.child).map fun c =>
          .untilSuccessNode r.name c .invalid
      | .untilFailureK =>
        (extractO store fuel r.child).map fun c =>
          .untilFailureNode r.name c .invalid

def extractL (store : List NodeRec) : Nat → List Nat → Option (List BehaviorNode)
  | _, [] => some []
  | fuel, id :: ids =>
    match extractN store fuel id, extractL store fuel ids with
    | some c, some cs => some (c :: cs)
    | _, _ => none

def extractO (store : List NodeRec) : Nat → Option Nat → Option (Option BehaviorNode)
  | _, none => some none
  | fuel, some id => (extractN store fuel id).map some

end

/-! ### Behaviour of the composite loops -/

theorem seqLoop_spec :
    ∀ (l : List BehaviorNode) (bb : Blackboard)
      {r : List BehaviorNode} {bb' : Blackboard} {s : BehaviorStatus} {j : Nat},
      seqLoop l bb = (r, bb', s, j) →
      r.length = l.length ∧
      ((s = .failure ∨ s = .running) → j < l.length) ∧
      (¬(s = .failure ∨ s = .running) → s = .success ∧ j = l.length) := by
  intro l
  induction l with
  | nil =>
    intro bb r bb' s j h
    simp only [seqLoop, Prod.mk.injEq] at h
    obtain ⟨rfl, rfl, rfl, rfl⟩ := h
    refine ⟨rfl, ?_, ?_⟩
    · rintro (h | h) <;> exact absurd h (by simp)
    · intro _; exact ⟨rfl, rfl⟩
  | cons c cs ih =>
    intro bb r bb' s j h
    rcases hE : execute c bb with ⟨c', bb1, st⟩
    simp only [seqLoop, hE] at h
    by_cases hst : st = BehaviorStatus.failure ∨ st = BehaviorStatus.running
    · rw [if_pos hst] at h
      simp only [Prod.mk.injEq] at h
      obtain ⟨rfl, rfl, rfl, rfl⟩ := h
      refine ⟨by simp, ?_, ?_⟩
      · intro _; simp
      · intro hcon; exact absurd hst hcon
    · rw [if_neg hst] at h
      rcases hS : seqLoop cs bb1 with ⟨cs', bb2, st₂, j'⟩
      rw [hS] at h
      simp only [Prod.mk.injEq] at h
      obtain ⟨rfl, rfl, rfl, rfl⟩ := h
      obtain ⟨hl, hstop, hsu⟩ := ih bb1 hS
      refine ⟨by simp [hl], ?_, ?_⟩
      · intro hx
        have := hstop hx
        simp
        omega
      · intro hx
        obtain ⟨h1, h2⟩ := hsu hx
        exact ⟨h1, by simp [h2]⟩

theorem selLoop_spec :
    ∀ (l : List BehaviorNode) (bb : Blackboard)
      {r : List BehaviorNode} {bb' : Blackboard} {s : BehaviorStatus} {j : Nat},
      selLoop l bb = (r, bb', s, j) →
      r.length = l.length ∧
      ((s = .success ∨ s = .running) → j < l.length) ∧
      (¬(s = .success ∨ s = .running) → s = .failure ∧ j = l.length) := by
  intro l
  induction l with
  | nil =>
    intro bb r bb' s j h
    simp only [selLoop, Prod.mk.injEq] at h
    obtain ⟨rfl, rfl, rfl, rfl⟩ := h
    refine ⟨rfl, ?_, ?_⟩
    · rintro (h | h) <;> exact absurd h (by simp)
    · intro _; exact ⟨rfl, rfl⟩
  | cons c cs ih =>
    intro bb r bb' s j h
    rcases hE : execute c bb with ⟨c', bb1, st⟩
    simp only [selLoop, hE] at h
    by_cases hst : st = BehaviorStatus.success ∨ st = BehaviorStatus.running
    · rw [if_pos hst] at h
      simp only [Prod.mk.injEq] at h
      obtain ⟨rfl, rfl, rfl, rfl⟩ := h
      refine ⟨by simp, ?_, ?_⟩
      · intro _; simp
      · intro hcon; exact absurd hst hcon
    · rw [if_neg hst] at h
      rcases hS : selLoop cs bb1 with ⟨cs', bb2, st₂, j'⟩
      rw [hS] at h
      simp only [Prod.mk.injEq] at h
      obtain ⟨rfl, rfl, rfl, rfl⟩ := h
      obtain ⟨hl, hstop, hsu⟩ := ih bb1 hS
      refine ⟨by simp [hl], ?_, ?_⟩
      · intro hx
        have := hstop hx
        simp
        omega
      · intro hx
        obtain ⟨h1, h2⟩ := hsu hx
        exact ⟨h1, by simp [h2]⟩

/-- When the sequence loop over the suffix from the cursor stops early with
`FAILURE` or `RUNNING`, `SequenceNode.execute` propagates the status and the
persisted cursor moves to the stopping child; the following `execute` is
driven entirely by `seqLoop` on the children from the new cursor on, with
the children before the cursor appearing unchanged in the result. -/
theorem sequence_stop_characterization
    (nm : String) (ch rest : List BehaviorNode) (i j : Nat)
    (st st₀ : BehaviorStatus) (bb bb' : Blackboard)
    (hi : i ≤ ch.length)
    (hst₀ : st₀ = .failure ∨ st₀ = .running)
    (h : seqLoop (ch.drop i) bb = (rest, bb', st₀, j)) :
    execute (.sequenceNode nm ch i st) bb
      = (.sequenceNode nm (ch.take i ++ rest) (i + j) st₀, bb', st₀)
    ∧ ∀ bb₂ : Blackboard, ∃ rest₂ bb₃ st₂ j₂,
        seqLoop (rest.drop j) bb₂ = (rest₂, bb₃, st₂, j₂) ∧
        execute (.sequenceNode nm (ch.take i ++ rest) (i + j) st₀) bb₂
          = (.sequenceNode nm (ch.take i ++ (rest.take j ++ rest₂))
               (if st₂ = .success then 0 else i + j + j₂) st₂, bb₃, st₂) := by
  obtain ⟨hlen, hstop, _⟩ := seqLoop_spec (ch.drop i) bb h
  have hjlt : j < (ch.drop i).length := hstop hst₀
  have hch : ch ≠ [] := by
    intro hc
    subst hc
    simp at hjlt
  have hne : ch.isEmpty = false := by
    cases ch with
    | nil => exact absurd rfl hch
    | cons a as => rfl
  have hTakeLen : (ch.take i).length = i := by
    rw [List.length_take]
    omega
  have hRestNe : rest ≠ [] := by
    intro hr
    subst hr
    have h0 : (List.drop i ch).length = 0 := by simpa using hlen.symm
    omega
  have hne₂ : (ch.take i ++ rest).isEmpty = false := by
    cases htl : ch.take i with
    | nil =>
      cases rest with
      | nil => exact absurd rfl hRestNe
      | cons a as => rfl
    | cons a as => rfl
  have hdrop : List.drop ((ch.take i).length + j) (ch.take i ++ rest) = List.drop j rest :=
    List.drop_append j
  rw [hTakeLen] at hdrop
  have htake : List.take ((ch.take i).length + j) (ch.take i ++ rest)
      = ch.take i ++ List.take j rest := List.take_append j
  rw [hTakeLen] at htake
  constructor
  · rcases hst₀ with rfl | rfl <;>
      simp only [execute, hne, Bool.false_eq_true, if_false, h]
  · intro bb₂
    rcases hsl : seqLoop (rest.drop j) bb₂ with ⟨rest₂, bb₃, st₂, j₂⟩
    refine ⟨rest₂, bb₃, st₂, j₂, rfl, ?_⟩
    simp only [execute, hne₂, Bool.false_eq_true, if_false, hdrop, hsl]
    cases st₂ with
    | success => simp [htake]
    | failure => simp [htake]
    | running => simp [htake]
    | invalid => simp [htake]

/-- Dual helper for `SelectorNode.execute`: when the selector loop over the
suffix from the cursor stops early with `SUCCESS` or `RUNNING`, the status
is propagated and the persisted cursor moves to the stopping child; the
following `execute` is driven entirely by `selLoop` on the children from
the new cursor on. -/
theorem selector_stop_characterization
    (nm : String) (ch rest : List BehaviorNode) (i j : Nat)
    (st st₀ : BehaviorStatus) (bb bb' : Blackboard)
    (hi : i ≤ ch.length)
    (hst₀ : st₀ = .success ∨ st₀ = .running)
    (h : selLoop (ch.drop i) bb = (rest, bb', st₀, j)) :
    execute (.selectorNode nm ch i st) bb
      = (.selectorNode nm (ch.take i ++ rest) (i + j) st₀, bb', st₀)
    ∧ ∀ bb₂ : Blackboard, ∃ rest₂ bb₃ st₂ j₂,
        selLoop (rest.drop j) bb₂ = (rest₂, bb₃, st₂, j₂) ∧
        execute (.selectorNode nm (ch.take i ++ rest) (i + j) st₀) bb₂
          = (.selectorNode nm (ch.take i ++ (rest.take j ++ rest₂))
               (if st₂ = .failure then 0 else i + j + j₂) st₂, bb₃, st₂) := by
  obtain ⟨hlen, hstop, _⟩ := selLoop_spec (ch.drop i) bb h
  have hjlt : j < (ch.drop i).length := hstop hst₀
  have hch : ch ≠ [] := by
    intro hc
    subst hc
    simp at hjlt
  have hne : ch.isEmpty = false := by
    cases ch with
    | nil => exact absurd rfl hch
    | cons a as => rfl
  have hTakeLen : (ch.take i).length = i := by
    rw [List.length_take]
    omega
  have hRestNe : rest ≠ [] := by
    intro hr
    subst hr
    have h0 : (List.drop i ch).length = 0 := by simpa using hlen.symm
    omega
  have hne₂ : (ch.take i ++ rest).isEmpty = false := by
    cases htl : ch.take i with
    | nil =>
      cases rest with
      | nil => exact absurd rfl hRestNe
      | cons a as => rfl
    | cons a as => rfl
  have hdrop : List.drop ((ch.take i).length + j) (ch.take i ++ rest) = List.drop j rest :=
    List.drop_append j
  rw [hTakeLen] at hdrop
  have htake : List.take ((ch.take i).length + j) (ch.take i ++ rest)
      = ch.take i ++ List.take j rest := List.take_append j
  rw [hTakeLen] at htake
  constructor
  · rcases hst₀ with rfl | rfl <;>
      simp only [execute, hne, Bool.false_eq_true, if_false, h]
  · intro bb₂
    rcases hsl : selLoop (rest.drop j) bb₂ with ⟨rest₂, bb₃, st₂, j₂⟩
    refine ⟨rest₂, bb₃, st₂, j₂, rfl, ?_⟩
    simp only [execute, hne₂, Bool.false_eq_true, if_false, hdrop, hsl]
    cases st₂ with
    | success => simp [htake]
    | failure => simp [htake]
    | running => simp [htake]
    | invalid => simp [htake]

/-! ### Fixture nodes used by witnesses and counterexamples -/

/-- An action whose callback always returns `SUCCESS` and leaves the
blackboard alone (here with a given stored status). -/
def okAction (st : BehaviorStatus) : BehaviorNode :=
  .actionNode "ok" (fun bb => (bb, .success)) st

/-- An action whose callback always returns `FAILURE`. -/
def failAction (st : BehaviorStatus) : BehaviorNode :=
  .actionNode "no" (fun bb => (bb, .failure)) st

/-- An action whose callback always returns `RUNNING`. -/
def runAction (st : BehaviorStatus) : BehaviorNode :=
  .actionNode "busy" (fun bb => (bb, .running)) st

/-! ### C1 -/

/-- C1: if during one call to `SequenceNode.execute` the loop starting at
the persisted cursor `i` stops at a child returning `RUNNING` (after `j`
succeeded children), the call returns `RUNNING` and the persisted cursor
becomes exactly the index `i + j` of the running child; the immediately
following `execute` (no reset in between) is computed by running `seqLoop`
on precisely the children from index `i + j` on — the already-succeeded
children `0 .. i+j-1` are carried over unchanged and are not re-invoked. -/
theorem claim_C1_sequence_running_resumes
    (nm : String) (ch rest : List BehaviorNode) (i j : Nat)
    (st : BehaviorStatus) (bb bb' : Blackboard)
    (hi : i ≤ ch.length)
    (h : seqLoop (ch.drop i) bb = (rest, bb', .running, j)) :
    execute (.sequenceNode nm ch i st) bb
      = (.sequenceNode nm (ch.take i ++ rest) (i + j) .running, bb', .running)
    ∧ ∀ bb₂ : Blackboard, ∃ rest₂ bb₃ st₂ j₂,
        seqLoop (rest.drop j) bb₂ = (rest₂, bb₃, st₂, j₂) ∧
        execute (.sequenceNode nm (ch.take i ++ rest) (i + j) .running) bb₂
          = (.sequenceNode nm (ch.take i ++ (rest.take j ++ rest₂))
               (if st₂ = .success then 0 else i + j + j₂) st₂, bb₃, st₂) :=
  sequence_stop_characterization nm ch rest i j st .running bb bb' hi (Or.inr rfl) h

/-- Witness for C1: a sequence `[ok, busy]` with cursor 0; the call returns
`RUNNING` with cursor 1. -/
theorem claim_C1_witness :
    execute (.sequenceNode "s" [okAction .invalid, runAction .invalid] 0 .invalid) []
      = (.sequenceNode "s" [okAction .success, runAction .running] 1 .running,
         [], .running) := by
  have h : seqLoop (([okAction .invalid, runAction .invalid] : List BehaviorNode).drop 0) []
      = ([okAction .success, runAction .running], [], .running, 1) := by
    simp [seqLoop, execute, okAction, runAction]
  exact (claim_C1_sequence_running_resumes "s" [okAction .invalid, runAction .invalid]
    [okAction .success, runAction .running] 0 1 .invalid [] [] (by simp) h).1

/-! ### C2 -/

/-- Counterexample to C2: the sequence `[ok, no]` (first child succeeds, the
second fails). `execute` returns `FAILURE`, but the persisted cursor is 1 —
the index of the failing child — and not 0: `SequenceNode.execute` does not
reset `_currentIndex` when a child fails, so the next `execute` does not
restart at child 0. -/
theorem claim_C2_counterexample :
    (execute (.sequenceNode "s" [okAction .invalid, failAction .invalid] 0 .invalid) []).2.2
        = .failure
    ∧ cursorOf
        (execute (.sequenceNode "s" [okAction .invalid, failAction .invalid] 0 .invalid) []).1
        = 1
    ∧ ¬ cursorOf
        (execute (.sequenceNode "s" [okAction .invalid, failAction .invalid] 0 .invalid) []).1
        = 0 := by
  have h : seqLoop (([okAction .invalid, failAction .invalid] : List BehaviorNode).drop 0) []
      = ([okAction .success, failAction .failure], [], .failure, 1) := by
    simp [seqLoop, execute, okAction, failAction]
  have hE := (sequence_stop_characterization "s" [okAction .invalid, failAction .invalid]
    [okAction .success, failAction .failure] 0 1 .invalid .failure [] []
    (by simp) (Or.inl rfl) h).1
  rw [hE]
  exact ⟨rfl, rfl, by decide⟩

/-- C2 (amended): when children `0 .. k-1` succeed and child `k` fails,
`SequenceNode.execute` returns `FAILURE` but keeps the persisted cursor at
the failing child `k` (it is not reset to 0), so the immediately following
`execute` resumes at child `k`, driven by `seqLoop` on the children from
index `k` on. -/
theorem claim_C2_sequence_failure_keeps_cursor
    (nm : String) (ch rest : List BehaviorNode) (k : Nat)
    (st : BehaviorStatus) (bb bb' : Blackboard)
    (h : seqLoop ch bb = (rest, bb', .failure, k)) :
    execute (.sequenceNode nm ch 0 st) bb
      = (.sequenceNode nm rest k .failure, bb', .failure)
    ∧ ∀ bb₂ : Blackboard, ∃ rest₂ bb₃ st₂ j₂,
        seqLoop (rest.drop k) bb₂ = (rest₂, bb₃, st₂, j₂) ∧
        execute (.sequenceNode nm rest k .failure) bb₂
          = (.sequenceNode nm (rest.take k ++ rest₂)
               (if st₂ = .success then 0 else k + j₂) st₂, bb₃, st₂) := by
  have h' : seqLoop (ch.drop 0) bb = (rest, bb', .failure, k) := by simpa using h
  obtain ⟨h1, h2⟩ := sequence_stop_characterization nm ch rest 0 k st .failure bb bb'
    (Nat.zero_le _) (Or.inl rfl) h'
  constructor
  · simpa using h1
  · intro bb₂
    obtain ⟨r₂, b₃, s₂, j₂, hs, he⟩ := h2 bb₂
    refine ⟨r₂, b₃, s₂, j₂, hs, ?_⟩
    simpa using he

/-- Witness for the amended C2 at the sequence `[ok, no]`. -/
theorem claim_C2_witness :
    execute (.sequenceNode "s" [okAction .invalid, failAction .invalid] 0 .invalid) []
      = (.sequenceNode "s" [okAction .success, failAction .failure] 1 .failure,
         [], .failure) := by
  have h : seqLoop ([okAction .invalid, failAction .invalid] : List BehaviorNode) []
      = ([okAction .success, failAction .failure], [], .failure, 1) := by
    simp [seqLoop, execute, okAction, failAction]
  exact (claim_C2_sequence_failure_keeps_cursor "s" [okAction .invalid, failAction .invalid]
    [okAction .success, failAction .failure] 1 .invalid [] [] h).1

/-! ### C5 -/

/-- Counterexample to C5: the selector `[no, ok]` (first child fails, the
second succeeds). `execute` returns `SUCCESS`, but the persisted cursor is
1 — the index of the succeeding child — and not 0: `SelectorNode.execute`
does not reset `_currentIndex` when a child's `SUCCESS` completes the
selector, contradicting "the persisted cursor is reset to 0 on every
completion". -/
theorem claim_C5_counterexample :
    (execute (.selectorNode "s" [failAction .invalid, okAction .invalid] 0 .invalid) []).2.2
        = .success
    ∧ cursorOf
        (execute (.selectorNode "s" [failAction .invalid, okAction .invalid] 0 .invalid) []).1
        = 1
    ∧ ¬ cursorOf
        (execute (.selectorNode "s" [failAction .invalid, okAction .invalid] 0 .invalid) []).1
        = 0 := by
  have h : selLoop (([failAction .invalid, okAction .invalid] : List BehaviorNode).drop 0) []
      = ([failAction .failure, okAction .success], [], .success, 1) := by
    simp [selLoop, execute, failAction, okAction]
  have hE := (selector_stop_characterization "s" [failAction .invalid, okAction .invalid]
    [failAction .failure, okAction .success] 0 1 .invalid .success [] []
    (by simp) (Or.inl rfl) h).1
  rw [hE]
  exact ⟨rfl, rfl, by decide⟩

/-- C5 (amended): `SelectorNode.execute` short-circuits and propagates a
child's `SUCCESS` or `RUNNING` while keeping the persisted cursor at that
child (not resetting it to 0 — the next `execute` resumes there); a child's
`FAILURE` advances the cursor; empty children return `FAILURE` and leave
the cursor untouched; and only when every child fails is the cursor reset
to 0 with `FAILURE` returned. -/
theorem claim_C5_selector_characterization
    (nm : String) (ch rest : List BehaviorNode) (i j : Nat)
    (st st₀ : BehaviorStatus) (bb bb' : Blackboard)
    (hi : i ≤ ch.length) :
    (ch = [] →
      execute (.selectorNode nm ch i st) bb = (.selectorNode nm ch i .failure, bb, .failure))
    ∧ ((st₀ = .success ∨ st₀ = .running) →
        selLoop (ch.drop i) bb = (rest, bb', st₀, j) →
        execute (.selectorNode nm ch i st) bb
          = (.selectorNode nm (ch.take i ++ rest) (i + j) st₀, bb', st₀)
        ∧ ∀ bb₂ : Blackboard, ∃ rest₂ bb₃ st₂ j₂,
            selLoop (rest.drop j) bb₂ = (rest₂, bb₃, st₂, j₂) ∧
            execute (.selectorNode nm (ch.take i ++ rest) (i + j) st₀) bb₂
              = (.selectorNode nm (ch.take i ++ (rest.take j ++ rest₂))
                   (if st₂ = .failure then 0 else i + j + j₂) st₂, bb₃, st₂))
    ∧ (ch ≠ [] →
        selLoop (ch.drop i) bb = (rest, bb', .failure, j) →
        execute (.selectorNode nm ch i st) bb
          = (.selectorNode nm (ch.take i ++ rest) 0 .failure, bb', .failure)) := by
  refine ⟨?_, ?_, ?_⟩
  · intro hc
    subst hc
    simp [execute]
  · intro hst₀ h
    exact selector_stop_characterization nm ch rest i j st st₀ bb bb' hi hst₀ h
  · intro hch h
    have hne : ch.isEmpty = false := by
      cases ch with
      | nil => exact absurd rfl hch
      | cons a as => rfl
    simp only [execute, hne, Bool.false_eq_true, if_false, h]

/-- Witness for the amended C5 at the selector `[no, ok]`: the second
child's `SUCCESS` completes the selector with the cursor kept at 1. -/
theorem claim_C5_witness :
    execute (.selectorNode "s" [failAction .invalid, okAction .invalid] 0 .invalid) []
      = (.selectorNode "s" [failAction .failure, okAction .success] 1 .success,
         [], .success) := by
  have h : selLoop (([failAction .invalid, okAction .invalid] : List BehaviorNode).drop 0) []
      = ([failAction .failure, okAction .success], [], .success, 1) := by
    simp [selLoop, execute, failAction, okAction]
  exact ((claim_C5_selector_characterization "s" [failAction .invalid, okAction .invalid]
    [failAction .failure, okAction .success] 0 1 .invalid .success [] []
    (by simp)).2.1 (Or.inl rfl) h).1

/-! ### Parallel: C4, C9, C10 -/

/-- The decision order exactly as claim C4 states it: branch (1)
`failureCount ≥ failurePolicy → Failure` carries no positivity guard on
`failurePolicy`. (Spec-side definition, for comparison with the code.) -/
def claimedParallelDecision (sp fp : Int) (n s f r : Nat) : BehaviorStatus :=
  if (f : Int) ≥ fp then .failure
  else if (s : Int) ≥ (if sp > 0 then sp else (n : Int)) then .success
  else if r > 0 then .running
  else .failure

/-- The decision order `ParallelNode.execute` implements: the failure
threshold is consulted only when `failurePolicy > 0`. -/
def parallelDecision (sp fp : Int) (n s f r : Nat) : BehaviorStatus :=
  if fp > 0 ∧ (f : Int) ≥ fp then .failure
  else if (s : Int) ≥ (if sp > 0 then sp else (n : Int)) then .success
  else if r > 0 then .running
  else .failure

/-- The decision of `ParallelNode.execute` when the failure branch is
disabled: only the success threshold and the running fallback remain. -/
def parallelFallbackDecision (sp : Int) (n s r : Nat) : BehaviorStatus :=
  if (s : Int) ≥ (if sp > 0 then sp else (n : Int)) then .success
  else if r > 0 then .running
  else .failure

/-- Counterexample to C4: `ParallelNode(successPolicy = -1,
failurePolicy = 0)` over one always-successful child. The tallies are
`successCount = 1`, `failureCount = 0`, `runningCount = 0`; branch (1) of
the claimed order fires (`0 ≥ 0`) and demands `FAILURE`, but the code
returns `SUCCESS` because its failure branch requires `failurePolicy > 0`. -/
theorem claim_C4_counterexample :
    (execute (.parallelNode "p" (-1) 0 [okAction .invalid] .invalid) []).2.2 = .success
    ∧ ((execAll [okAction .invalid] []).1.map Prod.snd).count .success = 1
    ∧ ((execAll [okAction .invalid] []).1.map Prod.snd).count .failure = 0
    ∧ ((execAll [okAction .invalid] []).1.map Prod.snd).count .running = 0
    ∧ claimedParallelDecision (-1) 0 1 1 0 0 = .failure
    ∧ ¬ (execute (.parallelNode "p" (-1) 0 [okAction .invalid] .invalid) []).2.2
        = claimedParallelDecision (-1) 0 1 1 0 0 := by
  refine ⟨?_, ?_, ?_, ?_, ?_, ?_⟩ <;>
    simp [execute, execAll, okAction, claimedParallelDecision]

/-- `ActionNode.execute`: run the callback, store and return its status. -/
theorem execute_action (nm : String) (f : Blackboard → Blackboard × BehaviorStatus)
    (st st₂ : BehaviorStatus) (bb bb₂ : Blackboard) (h : f bb = (bb₂, st₂)) :
    execute (.actionNode nm f st) bb = (.actionNode nm f st₂, bb₂, st₂) := by
  simp only [execute, h]

theorem execAll_nil (bb : Blackboard) : execAll [] bb = ([], bb) := by
  simp [execAll]

theorem execAll_cons (c c' : BehaviorNode) (cs : List BehaviorNode)
    (bb bb' bb'' : Blackboard) (st : BehaviorStatus)
    (rs : List (BehaviorNode × BehaviorStatus))
    (h1 : execute c bb = (c', bb', st)) (h2 : execAll cs bb' = (rs, bb'')) :
    execAll (c :: cs) bb = ((c', st) :: rs, bb'') := by
  simp only [execAll, h1, h2]

/-- `ParallelNode.execute` with a non-empty child list: every child is
evaluated once by `execAll`, the statuses are tallied, and the verdict is
`parallelDecision` applied to the tallies. -/
theorem parallel_execute_characterization
    (nm : String) (sp fp : Int) (ch : List BehaviorNode) (st : BehaviorStatus)
    (bb bb' : Blackboard) (rs : List (BehaviorNode × BehaviorStatus))
    (hch : ch ≠ []) (hA : execAll ch bb = (rs, bb')) :
    execute (.parallelNode nm sp fp ch st) bb
      = (.parallelNode nm sp fp (rs.map Prod.fst)
           (parallelDecision sp fp ch.length ((rs.map Prod.snd).count .success)
             ((rs.map Prod.snd).count .failure) ((rs.map Prod.snd).count .running)),
         bb',
         parallelDecision sp fp ch.length ((rs.map Prod.snd).count .success)
           ((rs.map Prod.snd).count .failure) ((rs.map Prod.snd).count .running)) := by
  have hne : ch.isEmpty = false := by
    cases ch with
    | nil => exact absurd rfl hch
    | cons a as => rfl
  simp only [execute, hne, Bool.false_eq_true, if_false, hA, parallelDecision]
  split_ifs <;> rfl

/-- C4 (amended): with a non-empty child list, `ParallelNode.execute`
evaluates every child once, tallies the statuses, and decides in this
order: (1) `failurePolicy > 0` and `failureCount ≥ failurePolicy` →
`FAILURE`; (2) else `successCount ≥ (successPolicy if positive, else the
number of children)` → `SUCCESS`; (3) else some child `RUNNING` →
`RUNNING`; (4) else `FAILURE`. The claim's two concrete examples hold:
`(successPolicy = 2, failurePolicy = 1)` over `[Success, Failure,
Running]` gives `FAILURE`, and `successPolicy = -1` over two successes
gives `SUCCESS`. -/
theorem claim_C4_parallel_policy
    (nm : String) (sp fp : Int) (ch : List BehaviorNode) (st : BehaviorStatus)
    (bb bb' : Blackboard) (rs : List (BehaviorNode × BehaviorStatus))
    (hch : ch ≠ []) (hA : execAll ch bb = (rs, bb')) :
    execute (.parallelNode nm sp fp ch st) bb
      = (.parallelNode nm sp fp (rs.map Prod.fst)
           (parallelDecision sp fp ch.length ((rs.map Prod.snd).count .success)
             ((rs.map Prod.snd).count .failure) ((rs.map Prod.snd).count .running)),
         bb',
         parallelDecision sp fp ch.length ((rs.map Prod.snd).count .success)
           ((rs.map Prod.snd).count .failure) ((rs.map Prod.snd).count .running))
    ∧ (execute (.parallelNode "p" 2 1
          [okAction .invalid, failAction .invalid, runAction .invalid] .invalid) []).2.2
        = .failure
    ∧ (execute (.parallelNode "p" (-1) 1 [okAction .invalid, okAction .invalid] .invalid)
          []).2.2 = .success := by
  refine ⟨parallel_execute_characterization nm sp fp ch st bb bb' rs hch hA, ?_, ?_⟩
  · have e1 : execute (okAction .invalid) [] = (okAction .success, [], .success) :=
      execute_action "ok" _ .invalid .success [] [] rfl
    have e2 : execute (failAction .invalid) [] = (failAction .failure, [], .failure) :=
      execute_action "no" _ .invalid .failure [] [] rfl
    have e3 : execute (runAction .invalid) [] = (runAction .running, [], .running) :=
      execute_action "busy" _ .invalid .running [] [] rfl
    have hA1 : execAll [okAction .invalid, failAction .invalid, runAction .invalid] []
        = ([(okAction .success, .success), (failAction .failure, .failure),
            (runAction .running, .running)], []) :=
      execAll_cons _ _ _ _ _ _ _ _ e1
        (execAll_cons _ _ _ _ _ _ _ _ e2
          (execAll_cons _ _ _ _ _ _ _ _ e3 (execAll_nil [])))
    rw [parallel_execute_characterization "p" 2 1
      [okAction .invalid, failAction .invalid, runAction .invalid] .invalid [] []
      [(okAction .success, .success), (failAction .failure, .failure),
       (runAction .running, .running)] (by simp) hA1]
    rfl
  · have e1 : execute (okAction .invalid) [] = (okAction .success, [], .success) :=
      execute_action "ok" _ .invalid .success [] [] rfl
    have hA2 : execAll [okAction .invalid, okAction .invalid] []
        = ([(okAction .success, .success), (okAction .success, .success)], []) :=
      execAll_cons _ _ _ _ _ _ _ _ e1
        (execAll_cons _ _ _ _ _ _ _ _ e1 (execAll_nil []))
    rw [parallel_execute_characterization "p" (-1) 1
      [okAction .invalid, okAction .invalid] .invalid [] []
      [(okAction .success, .success), (okAction .success, .success)] (by simp) hA2]
    rfl

/-- Witness for the amended C4 at `ParallelNode(2, 1)` over
`[Success, Failure, Running]`. -/
theorem claim_C4_witness :
    (execute (.parallelNode "p" 2 1
        [okAction .invalid, failAction .invalid, runAction .invalid] .invalid) []).2.2
      = .failure :=
  (claim_C4_parallel_policy "p" 2 1 [okAction .invalid] .invalid [] []
    [(okAction .success, .success)] (by simp)
    (by simp [execAll, execute, okAction])).2.1

/-- C9: with `failurePolicy ≤ 0` the failure-threshold branch of
`ParallelNode.execute` is disabled — the verdict is computed from the
success threshold and the running fallback alone, so `FAILURE` can only
arise when no child is running and the success threshold is unmet, no
matter how many children fail. -/
theorem claim_C9_failure_policy_disabled
    (nm : String) (sp fp : Int) (ch : List BehaviorNode) (st : BehaviorStatus)
    (bb bb' : Blackboard) (rs : List (BehaviorNode × BehaviorStatus))
    (hfp : fp ≤ 0) (hch : ch ≠ []) (hA : execAll ch bb = (rs, bb')) :
    execute (.parallelNode nm sp fp ch st) bb
      = (.parallelNode nm sp fp (rs.map Prod.fst)
           (parallelFallbackDecision sp ch.length ((rs.map Prod.snd).count .success)
             ((rs.map Prod.snd).count .running)),
         bb',
         parallelFallbackDecision sp ch.length ((rs.map Prod.snd).count .success)
           ((rs.map Prod.snd).count .running)) := by
  have hne : ch.isEmpty = false := by
    cases ch with
    | nil => exact absurd rfl hch
    | cons a as => rfl
  have hguard : ¬ (fp > 0 ∧ (((rs.map Prod.snd).count BehaviorStatus.failure : Int)) ≥ fp) := by
    rintro ⟨h1, -⟩
    omega
  simp only [execute, hne, Bool.false_eq_true, if_false, hA, if_neg hguard,
    parallelFallbackDecision]
  split_ifs <;> rfl

/-- Witness for C9: `ParallelNode(-1, 0)` over one failing child returns
the fallback verdict (here `FAILURE` through branch (4), not through the
failure threshold). -/
theorem claim_C9_witness :
    execute (.parallelNode "p" (-1) 0 [failAction .invalid] .invalid) []
      = (.parallelNode "p" (-1) 0 [failAction .failure]
           (parallelFallbackDecision (-1) 1 0 0), [],
         parallelFallbackDecision (-1) 1 0 0) := by
  have h := claim_C9_failure_policy_disabled "p" (-1) 0 [failAction .invalid] .invalid
    [] [] [(failAction .failure, .failure)] (by omega) (by simp)
    (by simp [execAll, execute, failAction])
  simpa using h

/-- C10: `ParallelNode.execute` with zero children returns `SUCCESS`
immediately, for every success / failure policy (neither threshold is
consulted). -/
theorem claim_C10_parallel_empty
    (nm : String) (sp fp : Int) (st : BehaviorStatus) (bb : Blackboard) :
    execute (.parallelNode nm sp fp [] st) bb
      = (.parallelNode nm sp fp [] .success, bb, .success) := by
  simp [execute]

/-! ### C8 -/

/-- C8: every decorator with no child attached (`InverterNode`,
`RepeatNode`, `UntilSuccessNode`, `UntilFailureNode`) deterministically
returns `FAILURE` from `execute`, for any blackboard and any stored state;
the absent child is never dereferenced. -/
theorem claim_C8_decorators_no_child
    (nm₁ nm₂ nm₃ nm₄ : String) (rc cnt : Int) (inf : Bool)
    (st₁ st₂ st₃ st₄ : BehaviorStatus) (bb : Blackboard) :
    execute (.inverterNode nm₁ none st₁) bb = (.inverterNode nm₁ none .failure, bb, .failure)
    ∧ execute (.repeatNode nm₂ rc inf cnt none st₂) bb
        = (.repeatNode nm₂ rc inf cnt none .failure, bb, .failure)
    ∧ execute (.untilSuccessNode nm₃ none st₃) bb
        = (.untilSuccessNode nm₃ none .failure, bb, .failure)
    ∧ execute (.untilFailureNode nm₄ none st₄) bb
        = (.untilFailureNode nm₄ none .failure, bb, .failure) := by
  refine ⟨?_, ?_, ?_, ?_⟩ <;> simp [execute]

/-! ### Repeat: C3 -/

/-- One external tick, dropping the returned status (it is also stored in
the node's `_status`). -/
def execStep (p : BehaviorNode × Blackboard) : BehaviorNode × Blackboard :=
  match execute p.1 p.2 with
  | (t, bb, _) => (t, bb)

/-- `k` successive external ticks. -/
def iterExec : Nat → BehaviorNode × Blackboard → BehaviorNode × Blackboard
  | 0, p => p
  | k + 1, p => iterExec k (execStep p)

theorem iterExec_succ_right (k : Nat) (p : BehaviorNode × Blackboard) :
    iterExec (k + 1) p = execStep (iterExec k p) := by
  induction k generalizing p with
  | zero => rfl
  | succ n ih =>
    calc iterExec (n + 2) p = iterExec (n + 1) (execStep p) := rfl
    _ = execStep (iterExec n (execStep p)) := ih (execStep p)
    _ = execStep (iterExec (n + 1) p) := rfl

/-- The number of recorded invocations in the counter key `"calls"`. -/
def countCalls (bb : Blackboard) : Int :=
  match bbFind bb "calls" with
  | some (.vInt n) => n
  | _ => 0

/-- An always-successful action whose callback increments the blackboard
key `"calls"`, making every single invocation of the child observable. -/
def countingAction (st : BehaviorStatus) : BehaviorNode :=
  .actionNode "tick"
    (fun bb => (bbSet bb "calls" (.vInt (countCalls bb + 1)), .success)) st

/-- One tick of a finite `RepeatNode` wrapping the counting action: while
the incremented counter is still below the target the child is executed
once, reset, and the decorator reports `RUNNING`; reaching the target
resets the counter to 0 and reports `SUCCESS`. -/
theorem repeat_counting_step
    (nm : String) (target cnt : Int) (stc st : BehaviorStatus) (bb : Blackboard)
    (hcnt : cnt < target) :
    execStep (.repeatNode nm target false cnt (some (countingAction stc)) st, bb)
      = if cnt + 1 < target then
          (.repeatNode nm target false (cnt + 1) (some (countingAction .invalid)) .running,
           bbSet bb "calls" (.vInt (countCalls bb + 1)))
        else
          (.repeatNode nm target false 0 (some (countingAction .success)) .success,
           bbSet bb "calls" (.vInt (countCalls bb + 1))) := by
  have hE : execute (countingAction stc) bb
      = (countingAction .success, bbSet bb "calls" (.vInt (countCalls bb + 1)), .success) := by
    simp [execute, countingAction]
  have hcond : (false = true ∨ cnt < target) := Or.inr hcnt
  simp only [execStep, execute, if_pos hcond, hE]
  by_cases h2 : cnt + 1 < target
  · rw [if_pos h2]
    simp only [Bool.false_eq_true, if_false, reduceCtorEq, reduceIte]
    rw [if_pos (Or.inr h2)]
    simp [resetNode, countingAction]
  · rw [if_neg h2]
    simp only [Bool.false_eq_true, if_false, reduceCtorEq, reduceIte]
    rw [if_neg (by rintro (hc | hc) <;> [exact absurd hc (by simp); exact absurd hc h2])]

/-- The initial state for the C3 scenario: a fresh finite `RepeatNode`
with target `N` wrapping the counting action, over an empty blackboard. -/
def repeatStart (N : Nat) : BehaviorNode × Blackboard :=
  (.repeatNode "rep" (N : Int) false 0 (some (countingAction .invalid)) .invalid, [])

/-- C3: for a finite `RepeatNode` with target `N ≥ 1` wrapping an action
that always returns `SUCCESS` (instrumented to count its invocations):
after `m` calls with `1 ≤ m < N` the decorator has reported `RUNNING`,
the persisted iteration counter is `m`, and the child has been invoked
exactly `m` times (exactly once per call); the `N`-th call invokes the
child once more (total `N`), resets the counter to 0 and reports
`SUCCESS`. -/
theorem claim_C3_repeat_requires_n_calls (N : Nat) (hN : 1 ≤ N) :
    (∀ m : Nat, 1 ≤ m → m < N →
      iterExec m (repeatStart N)
        = (.repeatNode "rep" (N : Int) false (m : Int)
             (some (countingAction .invalid)) .running,
           [("calls", .vInt (m : Int))]))
    ∧ iterExec N (repeatStart N)
        = (.repeatNode "rep" (N : Int) false 0
             (some (countingAction .success)) .success,
           [("calls", .vInt (N : Int))]) := by
  have hbump : ∀ m : Int, bbSet [("calls", Val.vInt m)] "calls"
      (.vInt (countCalls [("calls", Val.vInt m)] + 1)) = [("calls", Val.vInt (m + 1))] := by
    intro m
    simp [bbSet, countCalls, bbFind]
  have hbump0 : bbSet [] "calls" (.vInt (countCalls [] + 1)) = [("calls", Val.vInt 1)] := by
    simp [bbSet, countCalls, bbFind]
  have hmid : ∀ m : Nat, 1 ≤ m → m < N →
      iterExec m (repeatStart N)
        = (.repeatNode "rep" (N : Int) false (m : Int)
             (some (countingAction .invalid)) .running,
           [("calls", .vInt (m : Int))]) := by
    intro m
    induction m with
    | zero => intro h1 _; omega
    | succ n ih =>
      intro _ hlt
      rw [iterExec_succ_right]
      cases Nat.eq_zero_or_pos n with
      | inl h0 =>
        subst h0
        have : iterExec 0 (repeatStart N) = repeatStart N := rfl
        rw [this]
        unfold repeatStart
        rw [repeat_counting_step "rep" (N : Int) 0 .invalid .invalid [] (by exact_mod_cast hN)]
        rw [if_pos (by exact_mod_cast hlt)]
        simp [hbump0]
      | inr hpos =>
        rw [ih hpos (by omega)]
        rw [repeat_counting_step "rep" (N : Int) (n : Int) .invalid .running
          [("calls", .vInt (n : Int))] (by exact_mod_cast Nat.lt_of_succ_lt hlt)]
        rw [if_pos (by exact_mod_cast hlt)]
        rw [hbump]
        push_cast
        ring_nf
  refine ⟨hmid, ?_⟩
  cases Nat.lt_or_ge 1 N with
  | inr hle =>
    have hN1 : N = 1 := by omega
    subst hN1
    rw [iterExec_succ_right]
    have : iterExec 0 (repeatStart 1) = repeatStart 1 := rfl
    rw [this]
    unfold repeatStart
    rw [repeat_counting_step "rep" ((1 : Nat) : Int) 0 .invalid .invalid [] (by norm_num)]
    rw [if_neg (by norm_num)]
    simp [hbump0]
  | inl hlt =>
    obtain ⟨n, rfl⟩ : ∃ n, N = n + 1 := ⟨N - 1, by omega⟩
    rw [iterExec_succ_right]
    rw [hmid n (by omega) (by omega)]
    rw [repeat_counting_step "rep" ((n + 1 : Nat) : Int) (n : Int) .invalid .running
      [("calls", .vInt (n : Int))] (by push_cast; omega)]
    rw [if_neg (by push_cast; omega)]
    rw [hbump]
    push_cast
    ring_nf

/-- Witness for C3 at `N = 3`: the first two calls report `RUNNING` with
counters 1 and 2 and one child invocation each; the third call reports
`SUCCESS`, resets the counter to 0, and the child has run exactly 3
times. -/
theorem claim_C3_witness :
    iterExec 1 (repeatStart 3)
      = (.repeatNode "rep" (3 : Int) false 1 (some (countingAction .invalid)) .running,
         [("calls", .vInt 1)])
    ∧ iterExec 2 (repeatStart 3)
      = (.repeatNode "rep" (3 : Int) false 2 (some (countingAction .invalid)) .running,
         [("calls", .vInt 2)])
    ∧ iterExec 3 (repeatStart 3)
      = (.repeatNode "rep" (3 : Int) false 0 (some (countingAction .success)) .success,
         [("calls", .vInt 3)]) := by
  have h := claim_C3_repeat_requires_n_calls 3 (by omega)
  exact ⟨by simpa using h.1 1 (by omega) (by omega),
    by simpa using h.1 2 (by omega) (by omega),
    by simpa using h.2⟩

/-! ### Reset: C7 -/

theorem reset_aux :
    ∀ n : Nat,
      (∀ t : BehaviorNode, sizeOf t ≤ n →
        IsFresh (resetNode t) = true ∧ skel (resetNode t) = skel t ∧
        (IsFresh t = true → resetNode t = t))
      ∧ (∀ l : List BehaviorNode, sizeOf l ≤ n →
        IsFreshList (resetList l) = true ∧ skelList (resetList l) = skelList l ∧
        (IsFreshList l = true → resetList l = l))
      ∧ (∀ o : Option BehaviorNode, sizeOf o ≤ n →
        IsFreshOpt (resetOpt o) = true ∧ skelOpt (resetOpt o) = skelOpt o ∧
        (IsFreshOpt o = true → resetOpt o = o)) := by
  intro n
  induction n with
  | zero =>
    refine ⟨?_, ?_, ?_⟩
    · intro t ht
      exfalso
      cases t <;> simp at ht
    · intro l hl
      exfalso
      cases l <;> simp at hl
    · intro o ho
      exfalso
      cases o <;> simp at ho
  | succ n ih =>
    obtain ⟨ihN, ihL, ihO⟩ := ih
    refine ⟨?_, ?_, ?_⟩
    · intro t ht
      cases t with
      | sequenceNode nm ch i st =>
        have hch : sizeOf ch ≤ n := by simp at ht; omega
        obtain ⟨f1, f2, f3⟩ := ihL ch hch
        refine ⟨by simp [resetNode, IsFresh, f1], by simp [skel, resetNode, f2], ?_⟩
        intro hf
        simp [IsFresh] at hf
        obtain ⟨⟨h1, h2⟩, h3⟩ := hf
        simp [resetNode, f3 h3, h1, h2]
      | selectorNode nm ch i st =>
        have hch : sizeOf ch ≤ n := by simp at ht; omega
        obtain ⟨f1, f2, f3⟩ := ihL ch hch
        refine ⟨by simp [resetNode, IsFresh, f1], by simp [skel, resetNode, f2], ?_⟩
        intro hf
        simp [IsFresh] at hf
        obtain ⟨⟨h1, h2⟩, h3⟩ := hf
        simp [resetNode, f3 h3, h1, h2]
      | parallelNode nm sp fp ch st =>
        have hch : sizeOf ch ≤ n := by simp at ht; omega
        obtain ⟨f1, f2, f3⟩ := ihL ch hch
        refine ⟨by simp [resetNode, IsFresh, f1], by simp [skel, resetNode, f2], ?_⟩
        intro hf
        simp [IsFresh] at hf
        obtain ⟨h2, h3⟩ := hf
        simp [resetNode, f3 h3, h2]
      | conditionNode nm f st =>
        refine ⟨by simp [resetNode, IsFresh], by simp [skel, resetNode], ?_⟩
        intro hf
        simp [IsFresh] at hf
        simp [resetNode, hf]
      | actionNode nm f st =>
        refine ⟨by simp [resetNode, IsFresh], by simp [skel, resetNode], ?_⟩
        intro hf
        simp [IsFresh] at hf
        simp [resetNode, hf]
      | inverterNode nm c st =>
        have hc : sizeOf c ≤ n := by simp at ht; omega
        obtain ⟨f1, f2, f3⟩ := ihO c hc
        refine ⟨by simp [resetNode, IsFresh, f1], by simp [skel, resetNode, f2], ?_⟩
        intro hf
        simp [IsFresh] at hf
        obtain ⟨h2, h3⟩ := hf
        simp [resetNode, f3 h3, h2]
      | repeatNode nm rc inf cnt c st =>
        have hc : sizeOf c ≤ n := by simp at ht; omega
        obtain ⟨f1, f2, f3⟩ := ihO c hc
        refine ⟨by simp [resetNode, IsFresh, f1], by simp [skel, resetNode, f2], ?_⟩
        intro hf
        simp [IsFresh] at hf
        obtain ⟨⟨h1, h2⟩, h3⟩ := hf
        simp [resetNode, f3 h3, h1, h2]
      | untilSuccessNode nm c st =>
        have hc : sizeOf c ≤ n := by simp at ht; omega
        obtain ⟨f1, f2, f3⟩ := ihO c hc
        refine ⟨by simp [resetNode, IsFresh, f1], by simp [skel, resetNode, f2], ?_⟩
        intro hf
        simp [IsFresh] at hf
        obtain ⟨h2, h3⟩ := hf
        simp [resetNode, f3 h3, h2]
      | untilFailureNode nm c st =>
        have hc : sizeOf c ≤ n := by simp at ht; omega
        obtain ⟨f1, f2, f3⟩ := ihO c hc
        refine ⟨by simp [resetNode, IsFresh, f1], by simp [skel, resetNode, f2], ?_⟩
        intro hf
        simp [IsFresh] at hf
        obtain ⟨h2, h3⟩ := hf
        simp [resetNode, f3 h3, h2]
    · intro l hl
      cases l with
      | nil => exact ⟨rfl, rfl, fun _ => rfl⟩
      | cons c cs =>
        have hc : sizeOf c ≤ n := by simp at hl; omega
        have hcs : sizeOf cs ≤ n := by simp at hl; omega
        obtain ⟨f1, f2, f3⟩ := ihN c hc
        obtain ⟨g1, g2, g3⟩ := ihL cs hcs
        refine ⟨by simp [resetList, IsFreshList, f1, g1],
          by simp [skelList, resetList, f2, g2], ?_⟩
        intro hf
        simp [IsFreshList] at hf
        obtain ⟨h1, h2⟩ := hf
        simp [resetList, f3 h1, g3 h2]
    · intro o ho
      cases o with
      | none => exact ⟨rfl, rfl, fun _ => rfl⟩
      | some c =>
        have hc : sizeOf c ≤ n := by simp at ho; omega
        obtain ⟨f1, f2, f3⟩ := ihN c hc
        refine ⟨by simp [resetOpt, IsFreshOpt, f1], by simp [skelOpt, resetOpt, f2], ?_⟩
        intro hf
        simp [IsFreshOpt] at hf
        simp [resetOpt, f3 hf]

/-- Every node realized from a builder store is fresh: the builder never
touches per-run state, and the class constructors initialize `_status` to
`INVALID` and the cursor / counter to 0. -/
theorem extract_fresh :
    ∀ fuel : Nat,
      (∀ (store : List NodeRec) (id : Nat) (t : BehaviorNode),
        extractN store fuel id = some t → IsFresh t = true)
      ∧ (∀ (store : List NodeRec) (ids : List Nat) (ts : List BehaviorNode),
        extractL store fuel ids = some ts → IsFreshList ts = true)
      ∧ (∀ (store : List NodeRec) (oid : Option Nat) (ot : Option BehaviorNode),
        extractO store fuel oid = some ot → IsFreshOpt ot = true) := by
  intro fuel
  induction fuel with
  | zero =>
    refine ⟨?_, ?_, ?_⟩
    · intro store id t h
      simp [extractN] at h
    · intro store ids ts h
      induction ids generalizing ts with
      | nil =>
        simp [extractL] at h
        subst h
        rfl
      | cons i is ihl =>
        simp only [extractL] at h
        rcases hN : extractN store 0 i with _ | c
        · rw [hN] at h; exact absurd h (by simp)
        · simp [extractN] at hN
    · intro store oid ot h
      cases oid with
      | none =>
        simp [extractO] at h
        subst h
        rfl
      | some i =>
        simp only [extractO] at h
        rcases hN : extractN store 0 i with _ | c
        · rw [hN] at h; exact absurd h (by simp)
        · simp [extractN] at hN
  | succ f ihf =>
    obtain ⟨ihN, ihL, ihO⟩ := ihf
    have hN : ∀ (store : List NodeRec) (id : Nat) (t : BehaviorNode),
        extractN store (f + 1) id = some t → IsFresh t = true := by
      intro store id t h
      rcases hg : store[id]? with _ | r
      · simp [extractN, hg] at h
      · cases hk : r.kind with
        | sequenceK =>
          rcases hL : extractL store f r.children with _ | ch
          · simp [extractN, hg, hk, hL] at h
          · simp only [extractN, hg, hk, hL, Option.map_some', Option.some.injEq] at h
            subst h
            simp [IsFresh, ihL store r.children ch hL]
        | selectorK =>
          rcases hL : extractL store f r.children with _ | ch
          · simp [extractN, hg, hk, hL] at h
          · simp only [extractN, hg, hk, hL, Option.map_some', Option.some.injEq] at h
            subst h
            simp [IsFresh, ihL store r.children ch hL]
        | parallelK sp fp =>
          rcases hL : extractL store f r.children with _ | ch
          · simp [extractN, hg, hk, hL] at h
          · simp only [extractN, hg, hk, hL, Option.map_some', Option.some.injEq] at h
            subst h
            simp [IsFresh, ihL store r.children ch hL]
        | conditionK g =>
          simp only [extractN, hg, hk, Option.some.injEq] at h
          subst h
          rfl
        | actionK g =>
          simp only [extractN, hg, hk, Option.some.injEq] at h
          subst h
          rfl
        | inverterK =>
          rcases hO : extractO store f r.child with _ | c
          · simp [extractN, hg, hk, hO] at h
          · simp only [extractN, hg, hk, hO, Option.map_some', Option.some.injEq] at h
            subst h
            simp [IsFresh, ihO store r.child c hO]
        | repeatK rc =>
          rcases hO : extractO store f r.child with _ | c
          · simp [extractN, hg, hk, hO] at h
          · simp only [extractN, hg, hk, hO, Option.map_some', Option.some.injEq] at h
            subst h
            simp [IsFresh, ihO store r.child c hO]
        | untilSuccessK =>
          rcases hO : extractO store f r.child with _ | c
          · simp [extractN, hg, hk, hO] at h
          · simp only [extractN, hg, hk, hO, Option.map_some', Option.some.injEq] at h
            subst h
            simp [IsFresh, ihO store r.child c hO]
        | untilFailureK =>
          rcases hO : extractO store f r.child with _ | c
          · simp [extractN, hg, hk, hO] at h
          · simp only [extractN, hg, hk, hO, Option.map_some', Option.some.injEq] at h
            subst h
            simp [IsFresh, ihO store r.child c hO]
    refine ⟨hN, ?_, ?_⟩
    · intro store ids ts h
      induction ids generalizing ts with
      | nil =>
        simp [extractL] at h
        subst h
        rfl
      | cons i is ihl =>
        simp only [extractL] at h
        rcases h1 : extractN store (f + 1) i with _ | c
        · rw [h1] at h; exact absurd h (by simp)
        · rcases h2 : extractL store (f + 1) is with _ | cs
          · rw [h1, h2] at h; exact absurd h (by simp)
          · rw [h1, h2] at h
            simp at h
            subst h
            simp [IsFreshList, hN store i c h1, ihl cs h2]
    · intro store oid ot h
      cases oid with
      | none =>
        simp [extractO] at h
        subst h
        rfl
      | some i =>
        simp only [extractO] at h
        rcases h1 : extractN store (f + 1) i with _ | c
        · rw [h1] at h; exact absurd h (by simp)
        · rw [h1] at h
          simp at h
          subst h
          simp [IsFreshOpt, hN store i c h1]

/-- C7: `BehaviorTree.reset()` leaves the blackboard's contents completely
unchanged and maps the root (if any) through the recursive node `reset`;
node `reset` restores every descendant to freshly-built per-run state
(status `INVALID`, cursor and counter 0, as initialized by the class
constructors and produced when a builder store is realized) while
preserving the tree's structure, and is the identity on already-fresh
trees. -/
theorem claim_C7_reset_fresh_blackboard_untouched (bt : BehaviorTree) :
    (treeReset bt).blackboard = bt.blackboard
    ∧ (treeReset bt).root = bt.root.map resetNode
    ∧ (∀ t : BehaviorNode, IsFresh (resetNode t) = true ∧ skel (resetNode t) = skel t)
    ∧ (∀ t : BehaviorNode, IsFresh t = true → resetNode t = t)
    ∧ (∀ (store : List NodeRec) (fuel id : Nat) (t : BehaviorNode),
        extractN store fuel id = some t → IsFresh t = true) := by
  refine ⟨rfl, rfl, ?_, ?_, ?_⟩
  · intro t
    obtain ⟨h1, h2, _⟩ := (reset_aux (sizeOf t)).1 t (Nat.le_refl _)
    exact ⟨h1, h2⟩
  · intro t hf
    exact ((reset_aux (sizeOf t)).1 t (Nat.le_refl _)).2.2 hf
  · intro store fuel id t h
    exact (extract_fresh fuel).1 store id t h

/-- Witness for C7: a tree with a non-trivial blackboard and a stale
sequence root; `reset` leaves the blackboard alone, restores freshness,
and is the identity on the already-fresh counterpart. -/
theorem claim_C7_witness :
    (treeReset ⟨"t", some (.sequenceNode "s" [] 2 .running), [("k", .vInt 7)], true, false⟩).blackboard
      = [("k", .vInt 7)]
    ∧ IsFresh (resetNode (.sequenceNode "s" [] 2 .running)) = true
    ∧ resetNode (.sequenceNode "s" [] 0 .invalid) = .sequenceNode "s" [] 0 .invalid := by
  refine ⟨(claim_C7_reset_fresh_blackboard_untouched
      ⟨"t", some (.sequenceNode "s" [] 2 .running), [("k", .vInt 7)], true, false⟩).1, ?_, ?_⟩
  · exact ((claim_C7_reset_fresh_blackboard_untouched
      ⟨"t", none, [], true, false⟩).2.2.1 (.sequenceNode "s" [] 2 .running)).1
  · exact (claim_C7_reset_fresh_blackboard_untouched
      ⟨"t", none, [], true, false⟩).2.2.2.1 (.sequenceNode "s" [] 0 .invalid) (by rfl)

/-! ### Builder: C6 -/

/-- A builder script with an unmatched extra `end()`: `sequence("s");
end(); end(); action("b")`. The extra `end()` clears `_currentNode`, so
the subsequent `action` replaces the root. -/
def extraEndScript : Builder :=
  actionOp (endOp (endOp (sequenceOp Builder.empty "s"))) "b" (fun bb => (bb, .success))

/-- The same script with `end()` called one fewer time: `sequence("s");
end(); action("b")`. The action is attached as a child of the root
sequence. -/
def oneFewerEndScript : Builder :=
  actionOp (endOp (sequenceOp Builder.empty "s")) "b" (fun bb => (bb, .success))

/-- Counterexample to C6: after `sequence("s"); end()` the node stack is
empty, so the second `end()` is an unmatched call with an empty stack. It
does not raise an error, but it is not absorbed: it nulls `_currentNode`,
and the subsequently added `action("b")` then replaces the root, so
`build()` returns a tree rooted at `"b"`; with `end()` called one fewer
time the root is the original `sequence "s"` (with the action attached
beneath it). The two builder outcomes are not equivalent. -/
theorem claim_C6_counterexample :
    rootName (buildOp extraEndScript) = some "b"
    ∧ rootName (buildOp oneFewerEndScript) = some "s"
    ∧ ¬ rootName (buildOp extraEndScript) = rootName (buildOp oneFewerEndScript) := by
  refine ⟨rfl, rfl, by decide⟩

/-- C6 (amended): `end()` with an empty node stack never raises an error:
it sets `_currentNode` to null and changes nothing else. It is equivalent
to having called `end()` one fewer time only when the current node was
already null — then the builder state is literally unchanged. Otherwise
(for instance right after the root scope was closed, when the current node
is still the root) the extra `end()` clears the current pointer, with the
cascading effect that the next added node replaces the root of the tree
returned by `build()`. -/
theorem claim_C6_end_with_empty_stack (b : Builder) (h : b.nodeStack = []) :
    endOp b = { b with currentNode := none }
    ∧ (b.currentNode = none → endOp b = b) := by
  have h1 : endOp b = { b with currentNode := none } := by
    simp [endOp, popNode, h]
  refine ⟨h1, ?_⟩
  intro hc
  rw [h1]
  cases b
  simp only at hc
  simp [hc]

/-- Witness for the amended C6: after `sequence("s"); end(); end()` the
current node is null and the stack empty; a third `end()` leaves the
builder state exactly unchanged. -/
theorem claim_C6_witness :
    endOp (endOp (endOp (sequenceOp Builder.empty "s")))
      = endOp (endOp (sequenceOp Builder.empty "s")) :=
  (claim_C6_end_with_empty_stack (endOp (endOp (sequenceOp Builder.empty "s"))) rfl).2 rfl

end ThronefallBT
